import Mathlib

/-!
Shallow embedding of the streaming audio-analysis pipeline of this repository:
the window-coefficient generator, pipeline initialisation, the spectral
feature extractors (chroma, rolloff), the beat/tempo tracker and the chord
recognizer.  Sources: `components/audio_processing/audio_processing.c` and
`projects/musical-dna-sequencer/main/main.c`.

Modelling conventions: C `float`/`double` values are embedded as `ℚ`
(floating-point rounding is not modelled); `int64_t` timestamps as `ℤ`;
C arrays as Lean lists; null pointers as `Option`; `esp_err_t` as `EspErr`.
The transcendental `cosf` is abstracted as a function parameter, and
`roundf(12·log2f(x)+69)` is embedded exactly by integer comparisons
(see `midiRound`).
-/

namespace AudioSpec

/-- Embedding of the `esp_err_t` codes the sources use: `ESP_OK`,
`ESP_ERR_INVALID_ARG`, `ESP_ERR_NO_MEM`, plus a catch-all for codes coming
back from the external ESP-DSP library. -/
inductive EspErr where
  | ok
  | invalidArg
  | noMem
  | other (code : ℕ)
  deriving DecidableEq

/-- One window coefficient, from the `switch (window_type)` bodies shared by
`generate_window_coeffs` and `audio_apply_window` (audio_processing.c).
`c r` stands for `cosf(2π·r)`; types `0/1/2` are Hann/Hamming/Blackman, any
other type is the rectangular default with coefficient `1.0`. -/
def window_coeff (c : ℚ → ℚ) (window_type : ℤ) (length : ℕ) (i : ℕ) : ℚ :=
  if window_type = 0 then
    1/2 * (1 - c ((i : ℚ) / ((length : ℚ) - 1)))
  else if window_type = 1 then
    27/50 - 23/50 * c ((i : ℚ) / ((length : ℚ) - 1))
  else if window_type = 2 then
    21/50 - 1/2 * c ((i : ℚ) / ((length : ℚ) - 1)) + 2/25 * c (2 * (i : ℚ) / ((length : ℚ) - 1))
  else 1

/-- Embedding of `generate_window_coeffs` (audio_processing.c:63).  The C code
first frees the previously cached buffer `g_window_coeffs`, then mallocs the
replacement; `mallocOk` is the outcome of that malloc.  The result pairs the
returned `esp_err_t` with the new value of the `g_window_coeffs` cache; note
that the old `cache` argument never survives into the result, because it was
freed before the allocation was attempted. -/
def generate_window_coeffs (c : ℚ → ℚ) (mallocOk : Bool) (window_type : ℤ) (length : ℕ)
    (cache : Option (List ℚ)) : EspErr × Option (List ℚ) :=
  if mallocOk then
    (EspErr.ok, some ((List.range length).map (window_coeff c window_type length)))
  else
    (EspErr.noMem, none)

/-- Embedding of `audio_config_t` (audio_processing.h). -/
structure audio_config_t where
  sample_rate : ℤ
  fft_size : ℤ
  window_type : ℤ
  hop_size : ℤ
  normalize : Bool
  deriving DecidableEq

/-- The globals of audio_processing.c that `audio_processing_init` and
`audio_apply_window` touch: `g_audio_config`, `g_initialized` and the
`g_window_coeffs` cache. -/
structure APState where
  g_audio_config : audio_config_t
  g_initialized : Bool
  g_window_coeffs : Option (List ℚ)
  deriving DecidableEq

/-- Embedding of `audio_apply_window` (audio_processing.c:107).  `samples` is
the input pointer (`none` = NULL), `outIsNull` says whether the output pointer
is NULL.  The cached-coefficient path is taken when the cache is non-NULL and
`(length, window_type)` match the stored configuration; otherwise the window
is generated on the fly with the same formulas (rectangular default degrades
to a copy, i.e. multiplication by 1). -/
def audio_apply_window (c : ℚ → ℚ) (samples : Option (List ℚ)) (outIsNull : Bool)
    (length : ℕ) (window_type : ℤ) (st : APState) : EspErr × Option (List ℚ) :=
  match samples with
  | none => (EspErr.invalidArg, none)
  | some s =>
    if outIsNull then (EspErr.invalidArg, none)
    else
      match st.g_window_coeffs with
      | some w =>
        if (length : ℤ) = st.g_audio_config.fft_size ∧ window_type = st.g_audio_config.window_type then
          (EspErr.ok, some ((List.range length).map (fun i => s.getD i 0 * w.getD i 0)))
        else
          (EspErr.ok, some ((List.range length).map (fun i => s.getD i 0 * window_coeff c window_type length i)))
      | none =>
        (EspErr.ok, some ((List.range length).map (fun i => s.getD i 0 * window_coeff c window_type length i)))

/-- Embedding of `audio_processing_init` (audio_processing.c:22).  `config`
models the config pointer (`none` = NULL); `dsps` models the external
`dsps_fft2r_init_fc32` call (ESP-DSP is not part of this repository), and
`mallocOk` the allocation inside `generate_window_coeffs`.  Mirrors the C
control flow: validate, `memcpy` the config into `g_audio_config`, run the
DSP init, regenerate the window cache, set `g_initialized`. -/
def audio_processing_init (c : ℚ → ℚ) (dsps : ℤ → EspErr) (mallocOk : Bool)
    (config : Option audio_config_t) (st : APState) : EspErr × APState :=
  match config with
  | none => (EspErr.invalidArg, st)
  | some cfg =>
    if cfg.fft_size < 64 ∨ 4096 < cfg.fft_size then (EspErr.invalidArg, st)
    else if cfg.sample_rate < 8000 ∨ 96000 < cfg.sample_rate then (EspErr.invalidArg, st)
    else
      let st1 : APState := { st with g_audio_config := cfg }
      match dsps cfg.fft_size with
      | EspErr.ok =>
        let r := generate_window_coeffs c mallocOk cfg.window_type cfg.fft_size.toNat st1.g_window_coeffs
        match r.1 with
        | EspErr.ok => (EspErr.ok, { st1 with g_window_coeffs := r.2, g_initialized := true })
        | e => (e, { st1 with g_window_coeffs := r.2 })
      | e => (e, st1)

/-- Bounded search used by `midiRound`: returns the least `n` (starting from
the given accumulator) with `y < p·4^k`, stepping `p ← 4·p`.  `p` is kept as
an explicit power so that each step is a single rational comparison. -/
def midiSearch (y : ℚ) : ℕ → ℕ → ℚ → ℕ
  | 0, n, _ => n
  | Nat.succ fuel, n, p => if y < p then n else midiSearch y fuel (n + 1) (4 * p)

/-- Exact embedding of `(int)roundf(12.0f * log2f(x) + 69.0f)` for `x > 0`
(the MIDI note number computation of `audio_compute_chroma` and
`analyze_chords`, with `x = freq/440`).  For positive arguments,
`round(12·log2 x + 69) = n  ⟺  n − 1/2 ≤ 12·log2 x + 69 < n + 1/2
⟺  2^(2n) ≤ x^24·2^139 < 2^(2n+2)`, and the right-hand side is a pair of
exact rational comparisons; no boundary case arises because `x^24 = 2^k` with
`k` odd has no rational solution.  `midiRound` returns the least `n < 150`
with `x^24·2^139 < 2^(2n+2)`, which is that unique `n` (for every frequency
in the musical range the note number is below 150). -/
def midiRound (x : ℚ) : ℕ :=
  midiSearch (x ^ 24 * 2 ^ 139) 150 0 4

/-- Pitch-class computation shared by `audio_compute_chroma`
(audio_processing.c:343) and `analyze_chords` (main.c:341):
`pitch_class = ((int)roundf(midi)) % 12`, with the `if (pitch_class < 0)
pitch_class += 12` fixup; C `%` truncates, hence `Int.tmod`. -/
def pitch_class (freq : ℚ) : ℕ :=
  let note : ℤ := (midiRound (freq / 440) : ℤ)
  let pc : ℤ := note.tmod 12
  (if pc < 0 then pc + 12 else pc).toNat

/-- One iteration of the chroma accumulation loop (shared verbatim between
audio_processing.c:344-357 and main.c:337-347): bins whose frequency lies
strictly between 80 Hz and 2000 Hz add their magnitude to their pitch class. -/
def chroma_step (spectrum : List ℚ) (n : ℕ) (sr : ℚ) (ch : List ℚ) (i : ℕ) : List ℚ :=
  let freq : ℚ := (i : ℚ) * sr / (2 * (n : ℚ))
  if 80 < freq ∧ freq < 2000 then
    let p := pitch_class freq
    ch.set p (ch.getD p 0 + spectrum.getD i 0)
  else ch

/-- Embedding of `audio_compute_chroma` (audio_processing.c:334): accumulate
in-range bin magnitudes into the 12 pitch classes (bins `1..spectrum_size-1`),
then normalize by the total when it is positive. -/
def audio_compute_chroma (spectrum : List ℚ) (spectrum_size : ℕ) (sample_rate : ℚ) : List ℚ :=
  let raw := (List.range' 1 (spectrum_size - 1)).foldl
    (chroma_step spectrum spectrum_size sample_rate) (List.replicate 12 0)
  let s := raw.sum
  if 0 < s then raw.map (fun x => x / s) else raw

/-- Sum of the magnitudes of bins `1..j` (used by the rolloff computation:
both the `total_energy` loop and the cumulative prefix sums). -/
def binSum (spectrum : List ℚ) (j : ℕ) : ℚ :=
  ((List.range' 1 j).map (fun i => spectrum.getD i 0)).sum

/-- The scan loop of `calculate_spectral_rolloff`: walk the given bin indices
accumulating magnitude; return `freq(i)` at the first bin where the
accumulated magnitude reaches the threshold, and Nyquist if the list is
exhausted. -/
def rolloffGo (spectrum : List ℚ) (size : ℕ) (sample_rate : ℚ) (ethreshold : ℚ) :
    ℚ → List ℕ → ℚ
  | _, [] => sample_rate / 2
  | cum, i :: rest =>
    let cum1 := cum + spectrum.getD i 0
    if ethreshold ≤ cum1 then (i : ℚ) * sample_rate / (2 * (size : ℚ))
    else rolloffGo spectrum size sample_rate ethreshold cum1 rest

/-- Embedding of `calculate_spectral_rolloff` (audio_processing.c:212):
total over bins `1..size-1`, threshold `threshold × total`, first bin whose
cumulative magnitude reaches it (Nyquist `sample_rate/2` if none). -/
def calculate_spectral_rolloff (spectrum : List ℚ) (size : ℕ) (sample_rate : ℚ)
    (threshold : ℚ) : ℚ :=
  let total := binSum spectrum (size - 1)
  rolloffGo spectrum size sample_rate (threshold * total) 0 (List.range' 1 (size - 1))

/-- The fields of `audio_features_t` that the beat detector reads
(audio_processing.h): the frame energy and its timestamp. -/
structure audio_features_t where
  energy : ℚ
  timestamp : ℤ
  deriving DecidableEq

instance : Inhabited audio_features_t := ⟨⟨0, 0⟩⟩

/-- Embedding of `beat_detector_t` (audio_processing.h): 16-slot energy
history ring, 8-slot interval ring, write index, beat count, tempo,
confidence, last beat timestamp. -/
structure beat_detector_t where
  energy_history : List ℚ
  beat_intervals : List ℚ
  history_index : ℕ
  beat_count : ℕ
  tempo : ℚ
  confidence : ℚ
  last_beat_time : ℤ
  deriving DecidableEq

/-- Embedding of `audio_beat_detector_init` (audio_processing.c:374):
`memset` to zero, then `tempo = 120`. -/
def audio_beat_detector_init : beat_detector_t :=
  { energy_history := List.replicate 16 0
    beat_intervals := List.replicate 8 0
    history_index := 0
    beat_count := 0
    tempo := 120
    confidence := 0
    last_beat_time := 0 }

/-- The ring average the detector computes after writing the current energy
into the history slot: mean of the 16-slot ring (audio_processing.c:396-401). -/
def beatAvg (d : beat_detector_t) (energy : ℚ) : ℚ :=
  ((d.energy_history.set d.history_index energy).sum) / 16

/-- Embedding of `audio_beat_detector_process` (audio_processing.c:385) for a
non-NULL detector/features/output: write the energy into the ring, advance the
index mod 16, compute the ring average and the `1.3 ×` threshold, fire when
the energy exceeds the threshold and more than 200000 µs have passed since the
last beat; on fire (with at least one earlier beat) store the interval and
recompute the tempo from the `min(beat_count, 8)` leading ring entries, then
update the last-beat time, the count and the confidence `(e − avg)/avg`. -/
def audio_beat_detector_process (d : beat_detector_t) (f : audio_features_t) :
    beat_detector_t × Bool :=
  let hist := d.energy_history.set d.history_index f.energy
  let idx := (d.history_index + 1) % 16
  let avg := beatAvg d f.energy
  let threshold := (13 : ℚ)/10 * avg
  let now := f.timestamp
  if threshold < f.energy ∧ 200000 < now - d.last_beat_time then
    let d1 : beat_detector_t :=
      if 0 < d.beat_count then
        let interval : ℚ := ((now - d.last_beat_time : ℤ) : ℚ) / 1000000
        let intervals := d.beat_intervals.set (d.beat_count % 8) interval
        let count := min d.beat_count 8
        let avg_interval := (intervals.take count).sum / (count : ℚ)
        { d with beat_intervals := intervals, tempo := 60 / avg_interval }
      else d
    ({ d1 with
        energy_history := hist
        history_index := idx
        last_beat_time := now
        beat_count := d.beat_count + 1
        confidence := (f.energy - avg) / avg }, true)
  else
    ({ d with energy_history := hist, history_index := idx }, false)

/-- The sequence of `beat_detected` outputs produced by running the detector
over a list of frames from the given state. -/
def processTrace : beat_detector_t → List audio_features_t → List Bool
  | _, [] => []
  | d, f :: fs =>
    (audio_beat_detector_process d f).2 :: processTrace (audio_beat_detector_process d f).1 fs

/-- The detector state after running over a list of frames. -/
def finalState : beat_detector_t → List audio_features_t → beat_detector_t
  | d, [] => d
  | d, f :: fs => finalState (audio_beat_detector_process d f).1 fs

/-- The 24 binary triad templates of main.c:102 (12 major then 12 minor). -/
def chord_templates : List (List ℚ) :=
  [ [1,0,0,0,1,0,0,1,0,0,0,0]
  , [0,1,0,0,0,1,0,0,1,0,0,0]
  , [0,0,1,0,0,0,1,0,0,1,0,0]
  , [0,0,0,1,0,0,0,1,0,0,1,0]
  , [0,0,0,0,1,0,0,0,1,0,0,1]
  , [1,0,0,0,0,1,0,0,0,1,0,0]
  , [0,1,0,0,0,0,1,0,0,0,1,0]
  , [0,0,1,0,0,0,0,1,0,0,0,1]
  , [1,0,0,1,0,0,0,0,1,0,0,0]
  , [0,1,0,0,1,0,0,0,0,1,0,0]
  , [0,0,1,0,0,1,0,0,0,0,1,0]
  , [0,0,0,1,0,0,1,0,0,0,0,1]
  , [1,0,0,1,0,0,0,1,0,0,0,0]
  , [0,1,0,0,1,0,0,0,1,0,0,0]
  , [0,0,1,0,0,1,0,0,0,1,0,0]
  , [0,0,0,1,0,0,1,0,0,0,1,0]
  , [0,0,0,0,1,0,0,1,0,0,0,1]
  , [1,0,0,0,0,1,0,0,1,0,0,0]
  , [0,1,0,0,0,0,1,0,0,1,0,0]
  , [0,0,1,0,0,0,0,1,0,0,1,0]
  , [0,0,0,1,0,0,0,0,1,0,0,1]
  , [1,0,0,0,1,0,0,0,0,1,0,0]
  , [0,1,0,0,0,1,0,0,0,0,1,0]
  , [0,0,1,0,0,0,1,0,0,0,0,1] ]

/-- Correlation of a chroma vector against one template: the 12-term dot
product of main.c:366-369. -/
def chord_correlation (chroma tmpl : List ℚ) : ℚ :=
  ((List.range 12).map (fun i => chroma.getD i 0 * tmpl.getD i 0)).sum

/-- The template-selection loop of `analyze_chords` (main.c:361-374):
starting from `(best_chord, best_match) = (0, 0)`, replace the running best
whenever a template correlates strictly higher. -/
def chord_match (chroma : List ℚ) : ℕ × ℚ :=
  (List.range 24).foldl
    (fun best c =>
      let corr := chord_correlation chroma (chord_templates.getD c [])
      if best.2 < corr then (c, corr) else best)
    (0, 0)

/-- `FREQ_BINS` of main.c: `N_FFT / 2 = 512 / 2`. -/
def FREQ_BINS : ℕ := 256

/-- `I2S_SAMPLE_RATE` of main.c. -/
def I2S_SAMPLE_RATE : ℚ := 44100

/-- Embedding of `chord_info_t` (main.c): the consumer-visible chord
estimate, including the chroma snapshot. -/
structure chord_info_t where
  root_note : ℕ
  chord_type : ℕ
  confidence : ℚ
  chroma : List ℚ
  deriving DecidableEq

/-- The raw (unnormalized) chroma accumulated by `analyze_chords`
(main.c:335-347) over bins `1..FREQ_BINS-1`. -/
def dna_chroma (spectrum : List ℚ) : List ℚ :=
  (List.range' 1 (FREQ_BINS - 1)).foldl
    (chroma_step spectrum FREQ_BINS I2S_SAMPLE_RATE) (List.replicate 12 0)

/-- The chroma vector `analyze_chords` actually matches against: normalized
when the accumulated total is positive, otherwise the raw (all-zero) vector. -/
def dna_chroma_norm (spectrum : List ℚ) : List ℚ :=
  let raw := dna_chroma spectrum
  if 0 < raw.sum then raw.map (fun x => x / raw.sum) else raw

/-- Embedding of `analyze_chords` (main.c:333) acting on the `current_chord`
global: compute and (when the total is positive) normalize the chroma —
writing the snapshot `current_chord.chroma` inside the same loop — then match
the 24 templates and update root/type/confidence only when the best
correlation exceeds 0.3. -/
def analyze_chords (spectrum : List ℚ) (cur : chord_info_t) : chord_info_t :=
  let s := (dna_chroma spectrum).sum
  let chroma := dna_chroma_norm spectrum
  let cur1 := if 0 < s then { cur with chroma := chroma } else cur
  let best := chord_match chroma
  if 3/10 < best.2 then
    { cur1 with
        root_note := best.1 % 12
        chord_type := if 12 ≤ best.1 then 1 else 0
        confidence := best.2 }
  else cur1

/-- A concrete spectrum for the musical-dna-sequencer pipeline (bins beyond
the listed ones are zero): unit magnitude at bins 1,3,5,7,9,11,13,15,17,19,23,
whose frequencies `i·44100/512` fall in the 80–2000 Hz band and cover the 11
pitch classes 0,1,2,4,5,6,7,8,9,10,11. -/
def dnaSpec : List ℚ :=
  [0, 1, 0, 1, 0, 1, 0, 1, 0, 1, 0, 1, 0, 1, 0, 1, 0, 1, 0, 1, 0, 0, 0, 1]

/-- A concrete prior chord estimate (root F, minor, confidence 0.5, all-zero
chroma snapshot). -/
def dnaCur : chord_info_t :=
  { root_note := 5, chord_type := 1, confidence := 1/2, chroma := List.replicate 12 0 }

/-- The magnitude a spectrum bin contributes to the chroma accumulator: its
own magnitude when its frequency is strictly inside the 80–2000 Hz band,
nothing otherwise.  (Specification-side abbreviation used to state sums.) -/
def inRangeMag (spectrum : List ℚ) (n : ℕ) (sr : ℚ) (i : ℕ) : ℚ :=
  if 80 < (i : ℚ) * sr / (2 * (n : ℚ)) ∧ (i : ℚ) * sr / (2 * (n : ℚ)) < 2000 then
    spectrum.getD i 0
  else 0

lemma sum_map_div_eq (l : List ℚ) (s : ℚ) : (l.map (fun x => x / s)).sum = l.sum / s := by
  induction l with
  | nil => simp
  | cons a t ih => simp [ih, add_div]

lemma getD_nonneg (l : List ℚ) (h : ∀ x ∈ l, 0 ≤ x) (i : ℕ) : 0 ≤ l.getD i 0 := by
  rw [List.getD_eq_getElem?_getD]
  cases hp : l[i]? with
  | none => simp
  | some a => simpa using h a (List.getElem?_mem hp)

lemma sum_set_getD_add :
    ∀ (l : List ℚ) (p : ℕ), p < l.length → ∀ v : ℚ,
      (l.set p (l.getD p 0 + v)).sum = l.sum + v
  | [], p, hp, v => by simp at hp
  | a :: t, 0, _, v => by simp [List.set]; ring
  | a :: t, p + 1, hp, v => by
    have ih := sum_set_getD_add t p (by simpa using hp) v
    simp only [List.set, List.getD_cons_succ, List.sum_cons, ih]
    ring

lemma sum_ge_set_elem (l : List ℚ) (p : ℕ) (hp : p < l.length) (v : ℚ)
    (h : ∀ x ∈ l, 0 ≤ x) (hv : 0 ≤ v) : v ≤ (l.set p v).sum := by
  have hset := List.set_eq_take_cons_drop v hp
  rw [hset, List.sum_append, List.sum_cons]
  have h1 : 0 ≤ (List.take p l).sum :=
    List.sum_nonneg fun x hx => h x (List.take_subset _ _ hx)
  have h2 : 0 ≤ (List.drop (p + 1) l).sum :=
    List.sum_nonneg fun x hx => h x (List.drop_subset _ _ hx)
  linarith

lemma sum_set_nonneg (l : List ℚ) (p : ℕ) (v : ℚ) (h : ∀ x ∈ l, 0 ≤ x) (hv : 0 ≤ v) :
    0 ≤ (l.set p v).sum := by
  refine List.sum_nonneg fun x hx => ?_
  rcases List.mem_or_eq_of_mem_set hx with hx' | rfl
  · exact h x hx'
  · exact hv

lemma sum_map_pos (l : List ℕ) (g : ℕ → ℚ) (hnn : ∀ j ∈ l, 0 ≤ g j) :
    ∀ i ∈ l, 0 < g i → 0 < (l.map g).sum := by
  induction l with
  | nil => intro i hi; simp at hi
  | cons a t ih =>
    intro i hi hpos
    have ha : 0 ≤ g a := hnn a (List.mem_cons_self a t)
    have ht : 0 ≤ (t.map g).sum := by
      refine List.sum_nonneg ?_
      intro x hx
      obtain ⟨j, hj, rfl⟩ := List.mem_map.1 hx
      exact hnn j (List.mem_cons_of_mem _ hj)
    rcases List.mem_cons.1 hi with rfl | hi'
    · simp only [List.map_cons, List.sum_cons]; linarith
    · have := ih (fun j hj => hnn j (List.mem_cons_of_mem _ hj)) i hi' hpos
      simp only [List.map_cons, List.sum_cons]; linarith

lemma process_fire_iff (d : beat_detector_t) (f : audio_features_t) :
    (audio_beat_detector_process d f).2 = true ↔
      (13 : ℚ)/10 * beatAvg d f.energy < f.energy ∧
        200000 < f.timestamp - d.last_beat_time := by
  simp only [audio_beat_detector_process]
  split <;> simp_all

lemma process_fire_state (d : beat_detector_t) (f : audio_features_t)
    (h : (audio_beat_detector_process d f).2 = true) :
    (audio_beat_detector_process d f).1.last_beat_time = f.timestamp ∧
    (audio_beat_detector_process d f).1.beat_count = d.beat_count + 1 ∧
    (audio_beat_detector_process d f).1.confidence =
      (f.energy - beatAvg d f.energy) / beatAvg d f.energy := by
  have hc := (process_fire_iff d f).1 h
  simp [audio_beat_detector_process, hc]

lemma process_first_fire_tempo (d : beat_detector_t) (f : audio_features_t)
    (h0 : d.beat_count = 0) (h : (audio_beat_detector_process d f).2 = true) :
    (audio_beat_detector_process d f).1.tempo = d.tempo := by
  have hc := (process_fire_iff d f).1 h
  simp [audio_beat_detector_process, hc, h0]

lemma process_nofire_state (d : beat_detector_t) (f : audio_features_t)
    (h : (audio_beat_detector_process d f).2 = false) :
    (audio_beat_detector_process d f).1.last_beat_time = d.last_beat_time ∧
    (audio_beat_detector_process d f).1.beat_count = d.beat_count ∧
    (audio_beat_detector_process d f).1.tempo = d.tempo := by
  have hc : ¬((13 : ℚ)/10 * beatAvg d f.energy < f.energy ∧
      200000 < f.timestamp - d.last_beat_time) := by
    intro hcon
    rw [(process_fire_iff d f).2 hcon] at h
    simp at h
  simp [audio_beat_detector_process, hc]

lemma process_last_mono (d : beat_detector_t) (f : audio_features_t) :
    d.last_beat_time ≤ (audio_beat_detector_process d f).1.last_beat_time := by
  cases hb : (audio_beat_detector_process d f).2 with
  | true =>
    have hc := (process_fire_iff d f).1 hb
    rw [(process_fire_state d f hb).1]
    omega
  | false =>
    rw [(process_nofire_state d f hb).1]

lemma process_keeps_history (d : beat_detector_t) (f : audio_features_t) :
    (audio_beat_detector_process d f).1.energy_history =
      d.energy_history.set d.history_index f.energy ∧
    (audio_beat_detector_process d f).1.history_index = (d.history_index + 1) % 16 := by
  simp only [audio_beat_detector_process]
  split <;> simp

lemma finalState_append (d : beat_detector_t) (l1 l2 : List audio_features_t) :
    finalState d (l1 ++ l2) = finalState (finalState d l1) l2 := by
  induction l1 generalizing d with
  | nil => rfl
  | cons f t ih => exact ih (audio_beat_detector_process d f).1

lemma finalState_last_mono (d : beat_detector_t) (fs : List audio_features_t) :
    d.last_beat_time ≤ (finalState d fs).last_beat_time := by
  induction fs generalizing d with
  | nil => exact le_refl _
  | cons f t ih =>
    exact le_trans (process_last_mono d f) (ih (audio_beat_detector_process d f).1)

lemma processTrace_getD (fs : List audio_features_t) (d : beat_detector_t) (j : ℕ)
    (hj : j < fs.length) :
    (processTrace d fs).getD j false =
      (audio_beat_detector_process (finalState d (fs.take j)) (fs.getD j default)).2 := by
  induction fs generalizing d j with
  | nil => simp at hj
  | cons f t ih =>
    cases j with
    | zero => simp [processTrace, finalState]
    | succ j' =>
      have hj' : j' < t.length := by simpa using hj
      simp only [processTrace, List.getD_cons_succ, List.take_succ_cons, finalState]
      exact ih (audio_beat_detector_process d f).1 j' hj'

lemma finalState_take_succ (fs : List audio_features_t) (d : beat_detector_t) (i : ℕ)
    (hi : i < fs.length) :
    finalState d (fs.take (i + 1)) =
      (audio_beat_detector_process (finalState d (fs.take i)) (fs.getD i default)).1 := by
  have h1 : fs.take (i + 1) = fs.take i ++ [fs.getD i default] := by
    rw [List.take_succ]
    congr 1
    rw [List.getElem?_eq_getElem hi]
    simp [List.getD_eq_getElem?_getD, List.getElem?_eq_getElem hi]
  rw [h1, finalState_append]
  rfl

lemma trace_fire_gap (fs : List audio_features_t) (i j : ℕ) (hij : i < j) (hj : j < fs.length)
    (bi : (processTrace audio_beat_detector_init fs).getD i false = true)
    (bj : (processTrace audio_beat_detector_init fs).getD j false = true) :
    200000 < (fs.getD j default).timestamp - (fs.getD i default).timestamp := by
  have hi : i < fs.length := lt_trans hij hj
  rw [processTrace_getD fs _ i hi] at bi
  rw [processTrace_getD fs _ j hj] at bj
  have e1 : (finalState audio_beat_detector_init (fs.take (i + 1))).last_beat_time =
      (fs.getD i default).timestamp := by
    rw [finalState_take_succ fs _ i hi]
    exact (process_fire_state _ _ bi).1
  have hsplit : fs.take j = fs.take (i + 1) ++ (fs.take j).drop (i + 1) := by
    have : (fs.take j).take (i + 1) = fs.take (i + 1) := by
      rw [List.take_take]
      congr 1
      omega
    conv_lhs => rw [← List.take_append_drop (i + 1) (fs.take j)]
    rw [this]
  have e2 : (fs.getD i default).timestamp ≤
      (finalState audio_beat_detector_init (fs.take j)).last_beat_time := by
    rw [hsplit, finalState_append, ← e1]
    exact finalState_last_mono _ _
  have hc := ((process_fire_iff _ _).1 bj).2
  omega

/-- The state invariant the detector maintains along any run from
`audio_beat_detector_init` on non-negative frame energies: the history ring
keeps its 16 slots, the write index stays below 16 and every stored energy is
non-negative. -/
def beatInv (d : beat_detector_t) : Prop :=
  d.energy_history.length = 16 ∧ d.history_index < 16 ∧ ∀ x ∈ d.energy_history, 0 ≤ x

lemma beatInv_init : beatInv audio_beat_detector_init := by
  refine ⟨by simp [audio_beat_detector_init], by simp [audio_beat_detector_init], ?_⟩
  intro x hx
  rw [audio_beat_detector_init] at hx
  exact le_of_eq (List.eq_of_mem_replicate hx).symm

lemma beatInv_step (d : beat_detector_t) (f : audio_features_t) (hinv : beatInv d)
    (hf : 0 ≤ f.energy) : beatInv (audio_beat_detector_process d f).1 := by
  obtain ⟨hlen, hidx, hnn⟩ := hinv
  obtain ⟨hh, hi⟩ := process_keeps_history d f
  refine ⟨?_, ?_, ?_⟩
  · rw [hh, List.length_set, hlen]
  · rw [hi]; omega
  · rw [hh]
    intro x hx
    rcases List.mem_or_eq_of_mem_set hx with hx' | rfl
    · exact hnn x hx'
    · exact hf

lemma beatInv_finalState (fs : List audio_features_t) (hfs : ∀ g ∈ fs, 0 ≤ g.energy) :
    ∀ d : beat_detector_t, beatInv d → beatInv (finalState d fs) := by
  induction fs with
  | nil => intro d hd; exact hd
  | cons f t ih =>
    intro d hd
    have hf : 0 ≤ f.energy := hfs f (List.mem_cons_self f t)
    exact ih (fun g hg => hfs g (List.mem_cons_of_mem _ hg)) _ (beatInv_step d f hd hf)

lemma beatAvg_pos_of_fire (d : beat_detector_t) (f : audio_features_t) (hinv : beatInv d)
    (hf : 0 ≤ f.energy) (hfire : (audio_beat_detector_process d f).2 = true) :
    0 < beatAvg d f.energy := by
  obtain ⟨hlen, hidx, hnn⟩ := hinv
  have hc := ((process_fire_iff d f).1 hfire).1
  have hple : f.energy ≤ (d.energy_history.set d.history_index f.energy).sum :=
    sum_ge_set_elem _ _ (by omega) _ hnn hf
  have hps : 0 ≤ (d.energy_history.set d.history_index f.energy).sum :=
    sum_set_nonneg _ _ _ hnn hf
  rw [beatAvg] at hc ⊢
  linarith

lemma nofire_trace_state (fs : List audio_features_t) :
    ∀ d : beat_detector_t, (∀ b ∈ processTrace d fs, b = false) →
      (finalState d fs).beat_count = d.beat_count ∧ (finalState d fs).tempo = d.tempo := by
  induction fs with
  | nil => intro d _; exact ⟨rfl, rfl⟩
  | cons f t ih =>
    intro d hall
    have hb : (audio_beat_detector_process d f).2 = false :=
      hall _ (by simp [processTrace])
    have hrest : ∀ b ∈ processTrace (audio_beat_detector_process d f).1 t, b = false := by
      intro b hbmem
      exact hall b (by simp [processTrace, hbmem])
    obtain ⟨h1, h2, h3⟩ := process_nofire_state d f hb
    obtain ⟨ih1, ih2⟩ := ih (audio_beat_detector_process d f).1 hrest
    exact ⟨by rw [finalState, ih1, h2], by rw [finalState, ih2, h3]⟩

/-- C1: a `audio_beat_detector_process` call fires only when the frame energy
exceeds 1.3 times the 16-slot ring mean computed after the energy was written
into the ring, and more than 200000 µs have passed since `last_beat_time`;
consequently, on a run from the initial state, no two calls whose timestamps
differ by less than 200 ms can both report a beat. -/
theorem beat_fire_conditions_and_refractory :
    (∀ (d : beat_detector_t) (f : audio_features_t),
      (audio_beat_detector_process d f).2 = true →
      (13 : ℚ)/10 * beatAvg d f.energy < f.energy ∧
        200000 < f.timestamp - d.last_beat_time) ∧
    (∀ (fs : List audio_features_t) (i j : ℕ), i < j → j < fs.length →
      ((fs.getD j default).timestamp - (fs.getD i default).timestamp).natAbs < 200000 →
      ¬((processTrace audio_beat_detector_init fs).getD i false = true ∧
        (processTrace audio_beat_detector_init fs).getD j false = true)) := by
  constructor
  · intro d f h
    exact (process_fire_iff d f).1 h
  · intro fs i j hij hj habs ⟨bi, bj⟩
    have := trace_fire_gap fs i j hij hj bi bj
    omega

/-- Witness for C1: from the initial state, a frame of energy 16 at timestamp
300000 µs fires, and the theorem yields both fire conditions there. -/
theorem beat_fire_conditions_witness :
    (13 : ℚ)/10 * beatAvg audio_beat_detector_init
        ({ energy := 16, timestamp := 300000 } : audio_features_t).energy < 16 ∧
      (200000 : ℤ) < 300000 - audio_beat_detector_init.last_beat_time :=
  beat_fire_conditions_and_refractory.1 audio_beat_detector_init
    { energy := 16, timestamp := 300000 }
    (by norm_num [audio_beat_detector_process, beatAvg, audio_beat_detector_init, List.replicate])

/-- C6: on any run from the initial state in which every frame energy is
non-negative, whenever a beat fires the ring average `avg` is strictly
positive — so the confidence assignment `(energy − avg)/avg` never divides
by zero — and the stored confidence is exactly that quotient. -/
theorem beat_confidence_guarded (fs : List audio_features_t) (f : audio_features_t)
    (hfs : ∀ g ∈ fs, 0 ≤ g.energy) (hf : 0 ≤ f.energy)
    (hfire : (audio_beat_detector_process (finalState audio_beat_detector_init fs) f).2 = true) :
    0 < beatAvg (finalState audio_beat_detector_init fs) f.energy ∧
    (audio_beat_detector_process (finalState audio_beat_detector_init fs) f).1.confidence =
      (f.energy - beatAvg (finalState audio_beat_detector_init fs) f.energy) /
        beatAvg (finalState audio_beat_detector_init fs) f.energy := by
  have hinv := beatInv_finalState fs hfs audio_beat_detector_init beatInv_init
  exact ⟨beatAvg_pos_of_fire _ f hinv hf hfire, (process_fire_state _ f hfire).2.2⟩

/-- Witness for C6: the empty run followed by the energy-16 frame at
300000 µs fires, and the theorem gives a positive average there. -/
theorem beat_confidence_guarded_witness :
    0 < beatAvg (finalState audio_beat_detector_init [])
        ({ energy := 16, timestamp := 300000 } : audio_features_t).energy ∧
    (audio_beat_detector_process (finalState audio_beat_detector_init [])
        { energy := 16, timestamp := 300000 }).1.confidence =
      ((16 : ℚ) - beatAvg (finalState audio_beat_detector_init [])
          ({ energy := 16, timestamp := 300000 } : audio_features_t).energy) /
        beatAvg (finalState audio_beat_detector_init [])
          ({ energy := 16, timestamp := 300000 } : audio_features_t).energy :=
  beat_confidence_guarded [] { energy := 16, timestamp := 300000 }
    (by intro g hg; simp at hg) (by norm_num)
    (by norm_num [audio_beat_detector_process, beatAvg, audio_beat_detector_init,
          List.replicate, finalState])

/-- C10: `audio_beat_detector_init` produces tempo 120 BPM, zero beat count,
zero confidence and all-zero history and interval rings; and on any run in
which no beat has fired yet, the first firing call sets `last_beat_time` to
its timestamp, the count to 1 and the confidence to `(e − avg)/avg`, while
the tempo stays at 120 — tempo is recomputed only when `beat_count > 0` at
fire time. -/
theorem beat_init_and_first_beat :
    (audio_beat_detector_init.tempo = 120 ∧ audio_beat_detector_init.beat_count = 0 ∧
     audio_beat_detector_init.confidence = 0 ∧
     audio_beat_detector_init.energy_history = List.replicate 16 0 ∧
     audio_beat_detector_init.beat_intervals = List.replicate 8 0) ∧
    ∀ (fs : List audio_features_t) (f : audio_features_t),
      (∀ b ∈ processTrace audio_beat_detector_init fs, b = false) →
      (audio_beat_detector_process (finalState audio_beat_detector_init fs) f).2 = true →
      (audio_beat_detector_process (finalState audio_beat_detector_init fs) f).1.tempo = 120 ∧
      (audio_beat_detector_process (finalState audio_beat_detector_init fs) f).1.beat_count = 1 ∧
      (audio_beat_detector_process (finalState audio_beat_detector_init fs) f).1.last_beat_time
        = f.timestamp ∧
      (audio_beat_detector_process (finalState audio_beat_detector_init fs) f).1.confidence =
        (f.energy - beatAvg (finalState audio_beat_detector_init fs) f.energy) /
          beatAvg (finalState audio_beat_detector_init fs) f.energy := by
  refine ⟨⟨rfl, rfl, rfl, rfl, rfl⟩, ?_⟩
  intro fs f hall hfire
  obtain ⟨hcount, htempo⟩ := nofire_trace_state fs audio_beat_detector_init hall
  obtain ⟨h1, h2, h3⟩ := process_fire_state _ f hfire
  refine ⟨?_, ?_, h1, h3⟩
  · rw [process_first_fire_tempo _ f (by rw [hcount]; rfl) hfire, htempo]; rfl
  · rw [h2, hcount]; rfl

/-- Witness for C10: the empty run (no prior beat) followed by the energy-16
frame at 300000 µs fires; the theorem yields tempo 120, count 1, updated
last-beat time and the confidence quotient. -/
theorem beat_init_and_first_beat_witness :
    (audio_beat_detector_process (finalState audio_beat_detector_init [])
        { energy := 16, timestamp := 300000 }).1.tempo = 120 ∧
    (audio_beat_detector_process (finalState audio_beat_detector_init [])
        { energy := 16, timestamp := 300000 }).1.beat_count = 1 ∧
    (audio_beat_detector_process (finalState audio_beat_detector_init [])
        { energy := 16, timestamp := 300000 }).1.last_beat_time = 300000 ∧
    (audio_beat_detector_process (finalState audio_beat_detector_init [])
        { energy := 16, timestamp := 300000 }).1.confidence =
      ((16 : ℚ) - beatAvg (finalState audio_beat_detector_init [])
          ({ energy := 16, timestamp := 300000 } : audio_features_t).energy) /
        beatAvg (finalState audio_beat_detector_init [])
          ({ energy := 16, timestamp := 300000 } : audio_features_t).energy :=
  beat_init_and_first_beat.2 [] { energy := 16, timestamp := 300000 }
    (by intro b hb; simp [processTrace] at hb)
    (by norm_num [audio_beat_detector_process, beatAvg, audio_beat_detector_init,
          List.replicate, finalState])

/-- C7: `generate_window_coeffs` frees the previously cached buffer before
attempting the replacement allocation, so when the allocation fails
(OutOfMemory) the previously valid cache is discarded — the call returns
`ESP_ERR_NO_MEM` with the cache left empty, for every prior cache content.
This contradicts the claim that the old buffer survives a failed
regeneration. -/
theorem generate_window_coeffs_discards_cache (c : ℚ → ℚ) (window_type : ℤ) (length : ℕ)
    (buf : List ℚ) :
    generate_window_coeffs c false window_type length (some buf) = (EspErr.noMem, none) := rfl

lemma generate_window_coeffs_fst (c : ℚ → ℚ) (m : Bool) (wt : ℤ) (len : ℕ)
    (cache : Option (List ℚ)) :
    (generate_window_coeffs c m wt len cache).1 = if m then EspErr.ok else EspErr.noMem := by
  cases m <;> rfl

/-- Counterexample to C8: generating a rectangular (type 3 = default) window
of length 1 — below the claimed minimum of 2 — succeeds with coefficient 1.0
instead of failing with InvalidArgument. -/
theorem generate_window_coeffs_length_one_ok :
    generate_window_coeffs (fun _ => 0) true 3 1 none = (EspErr.ok, some [1]) ∧
      EspErr.ok ≠ EspErr.invalidArg := ⟨rfl, by decide⟩

/-- C8 amended: neither `generate_window_coeffs` nor `audio_apply_window`
validates the length: for every length < 2, coefficient generation never
returns InvalidArgument (allocation failure yields OutOfMemory, otherwise the
coefficients are computed and written), and `audio_apply_window` returns
InvalidArgument exactly when one of its buffer pointers is NULL. -/
theorem window_length_not_validated (c : ℚ → ℚ) (m : Bool) (wt : ℤ) (len : ℕ)
    (cache : Option (List ℚ)) (samples : Option (List ℚ)) (outIsNull : Bool) (st : APState)
    (hlen : len < 2) :
    (generate_window_coeffs c m wt len cache).1 ≠ EspErr.invalidArg ∧
    ((audio_apply_window c samples outIsNull len wt st).1 = EspErr.invalidArg ↔
      samples = none ∨ outIsNull = true) := by
  constructor
  · rw [generate_window_coeffs_fst]
    cases m <;> decide
  · rcases samples with _ | s
    · simp [audio_apply_window]
    · cases outIsNull
      · simp only [audio_apply_window, Bool.false_eq_true, if_false]
        rcases hw : st.g_window_coeffs with _ | w
        · simp
        · split
          all_goals first
            | (split <;> simp)
            | simp
      · simp [audio_apply_window]

/-- Witness for C8 (amended): at length 1 with a non-NULL sample buffer and
non-NULL output, generation does not return InvalidArgument and windowing
returns InvalidArgument only for NULL pointers. -/
theorem window_length_not_validated_witness :
    (generate_window_coeffs (fun _ => 0) true 3 1 none).1 ≠ EspErr.invalidArg ∧
    ((audio_apply_window (fun _ => 0) (some [5]) false 1 3
        { g_audio_config := { sample_rate := 0, fft_size := 0, window_type := 0, hop_size := 0,
                              normalize := false },
          g_initialized := false, g_window_coeffs := none }).1 = EspErr.invalidArg ↔
      (some [5] : Option (List ℚ)) = none ∨ false = true) :=
  window_length_not_validated (fun _ => 0) true 3 1 none (some [5]) false
    { g_audio_config := { sample_rate := 0, fft_size := 0, window_type := 0, hop_size := 0,
                          normalize := false },
      g_initialized := false, g_window_coeffs := none } (by decide)

/-- Counterexample to C2: an in-range but non-power-of-two FFT size (100)
passes `audio_processing_init` validation — with the external DSP init and
the allocation succeeding, the call returns ESP_OK, so construction is not
rejected with InvalidArgument even though 100 is not a power of two. -/
theorem audio_processing_init_no_pow2_check :
    (audio_processing_init (fun _ => 0) (fun _ => EspErr.ok) true
      (some { sample_rate := 44100, fft_size := 100, window_type := 0, hop_size := 256,
              normalize := false })
      { g_audio_config := { sample_rate := 0, fft_size := 0, window_type := 0, hop_size := 0,
                            normalize := false },
        g_initialized := false, g_window_coeffs := none }).1 = EspErr.ok ∧
    ∀ k : ℕ, (2 : ℤ) ^ k ≠ 100 := by
  constructor
  · rfl
  · intro k
    rcases lt_or_le k 7 with hk | hk
    · interval_cases k <;> decide
    · intro he
      have h2 : (2 : ℤ) ^ 7 ≤ 2 ^ k := pow_le_pow_right₀ (by norm_num) hk
      rw [he] at h2
      norm_num at h2

/-- C2 amended: `audio_processing_init` returns InvalidArgument exactly when
the config pointer is NULL, `fft_size` lies outside [64, 4096], or
`sample_rate` lies outside [8000, 96000] — it performs no power-of-two check
itself (that is delegated to the external DSP library, whose failures use
other codes); and for every configuration passing these range checks, when
the external DSP init and the window allocation succeed, the call returns
ESP_OK, stores the configuration unchanged and marks the module
initialized. -/
theorem audio_processing_init_validation (c : ℚ → ℚ) (dsps : ℤ → EspErr) (m : Bool)
    (config : Option audio_config_t) (st : APState)
    (hd : ∀ n, dsps n ≠ EspErr.invalidArg) :
    ((audio_processing_init c dsps m config st).1 = EspErr.invalidArg ↔
      config = none ∨ ∃ cfg, config = some cfg ∧
        (cfg.fft_size < 64 ∨ 4096 < cfg.fft_size ∨
         cfg.sample_rate < 8000 ∨ 96000 < cfg.sample_rate)) ∧
    ∀ cfg, config = some cfg →
      64 ≤ cfg.fft_size → cfg.fft_size ≤ 4096 →
      8000 ≤ cfg.sample_rate → cfg.sample_rate ≤ 96000 →
      dsps cfg.fft_size = EspErr.ok → m = true →
      (audio_processing_init c dsps m config st).1 = EspErr.ok ∧
      (audio_processing_init c dsps m config st).2.g_audio_config = cfg ∧
      (audio_processing_init c dsps m config st).2.g_initialized = true := by
  constructor
  · rcases config with _ | cfg
    · simp [audio_processing_init]
    · simp only [audio_processing_init]
      by_cases h1 : cfg.fft_size < 64 ∨ 4096 < cfg.fft_size
      · simp only [if_pos h1]
        simp
        omega
      · by_cases h2 : cfg.sample_rate < 8000 ∨ 96000 < cfg.sample_rate
        · simp only [if_neg h1, if_pos h2]
          simp
          omega
        · simp only [if_neg h1, if_neg h2]
          rcases hd2 : dsps cfg.fft_size with _ | _ | _ | code
          · rw [generate_window_coeffs_fst]
            cases m <;> simp <;> omega
          · exact absurd hd2 (hd cfg.fft_size)
          · simp
            omega
          · simp
            omega
  · intro cfg hceq h64 h4096 h8000 h96000 hdsps hm
    subst hceq
    subst hm
    have h1 : ¬(cfg.fft_size < 64 ∨ 4096 < cfg.fft_size) := by omega
    have h2 : ¬(cfg.sample_rate < 8000 ∨ 96000 < cfg.sample_rate) := by omega
    simp only [audio_processing_init, if_neg h1, if_neg h2, hdsps]
    simp [generate_window_coeffs]

/-- Witness for C2 (amended): a valid configuration (44100 Hz, FFT 1024) with
succeeding externals is accepted, stored unchanged and marked initialized. -/
theorem audio_processing_init_validation_witness :
    (audio_processing_init (fun _ => 0) (fun _ => EspErr.ok) true
      (some { sample_rate := 44100, fft_size := 1024, window_type := 0, hop_size := 256,
              normalize := false })
      { g_audio_config := { sample_rate := 0, fft_size := 0, window_type := 0, hop_size := 0,
                            normalize := false },
        g_initialized := false, g_window_coeffs := none }).1 = EspErr.ok ∧
    (audio_processing_init (fun _ => 0) (fun _ => EspErr.ok) true
      (some { sample_rate := 44100, fft_size := 1024, window_type := 0, hop_size := 256,
              normalize := false })
      { g_audio_config := { sample_rate := 0, fft_size := 0, window_type := 0, hop_size := 0,
                            normalize := false },
        g_initialized := false, g_window_coeffs := none }).2.g_audio_config =
      { sample_rate := 44100, fft_size := 1024, window_type := 0, hop_size := 256,
        normalize := false } ∧
    (audio_processing_init (fun _ => 0) (fun _ => EspErr.ok) true
      (some { sample_rate := 44100, fft_size := 1024, window_type := 0, hop_size := 256,
              normalize := false })
      { g_audio_config := { sample_rate := 0, fft_size := 0, window_type := 0, hop_size := 0,
                            normalize := false },
        g_initialized := false, g_window_coeffs := none }).2.g_initialized = true :=
  (audio_processing_init_validation (fun _ => 0) (fun _ => EspErr.ok) true _ _
      (fun n h => EspErr.noConfusion h)).2
    { sample_rate := 44100, fft_size := 1024, window_type := 0, hop_size := 256,
      normalize := false }
    rfl (by decide) (by decide) (by decide) (by decide) rfl rfl

lemma pitch_class_lt_12 (f : ℚ) : pitch_class f < 12 := by
  simp only [pitch_class]
  have h : ((midiRound (f / 440) : ℤ).tmod 12) = ((midiRound (f / 440) % 12 : ℕ) : ℤ) := rfl
  rw [h]
  rw [if_neg (by omega)]
  have := Nat.mod_lt (midiRound (f / 440)) (show 0 < 12 by omega)
  omega

lemma chroma_step_length (spectrum : List ℚ) (n : ℕ) (sr : ℚ) (ch : List ℚ) (i : ℕ) :
    (chroma_step spectrum n sr ch i).length = ch.length := by
  by_cases h : 80 < (i : ℚ) * sr / (2 * (n : ℚ)) ∧ (i : ℚ) * sr / (2 * (n : ℚ)) < 2000
  · simp only [chroma_step, if_pos h]
    exact List.length_set ch _ _
  · simp only [chroma_step, if_neg h]

lemma chroma_step_nonneg (spectrum : List ℚ) (n : ℕ) (sr : ℚ) (ch : List ℚ) (i : ℕ)
    (hs : ∀ x ∈ spectrum, 0 ≤ x) (hch : ∀ x ∈ ch, 0 ≤ x) :
    ∀ x ∈ chroma_step spectrum n sr ch i, 0 ≤ x := by
  by_cases h : 80 < (i : ℚ) * sr / (2 * (n : ℚ)) ∧ (i : ℚ) * sr / (2 * (n : ℚ)) < 2000
  · simp only [chroma_step, if_pos h]
    intro x hx
    rcases List.mem_or_eq_of_mem_set hx with hx' | rfl
    · exact hch x hx'
    · have h1 := getD_nonneg ch hch (pitch_class ((i : ℚ) * sr / (2 * (n : ℚ))))
      have h2 := getD_nonneg spectrum hs i
      linarith
  · simp only [chroma_step, if_neg h]
    exact hch

lemma chroma_step_sum (spectrum : List ℚ) (n : ℕ) (sr : ℚ) (ch : List ℚ) (i : ℕ)
    (hch : ch.length = 12) :
    (chroma_step spectrum n sr ch i).sum = ch.sum + inRangeMag spectrum n sr i := by
  by_cases h : 80 < (i : ℚ) * sr / (2 * (n : ℚ)) ∧ (i : ℚ) * sr / (2 * (n : ℚ)) < 2000
  · simp only [chroma_step, inRangeMag, if_pos h]
    exact sum_set_getD_add ch _ (by rw [hch]; exact pitch_class_lt_12 _) _
  · simp only [chroma_step, inRangeMag, if_neg h]
    simp

lemma chroma_fold_spec (spectrum : List ℚ) (n : ℕ) (sr : ℚ) (hs : ∀ x ∈ spectrum, 0 ≤ x) :
    ∀ (l : List ℕ) (ch : List ℚ), ch.length = 12 → (∀ x ∈ ch, 0 ≤ x) →
      (l.foldl (chroma_step spectrum n sr) ch).length = 12 ∧
      (∀ x ∈ l.foldl (chroma_step spectrum n sr) ch, 0 ≤ x) ∧
      (l.foldl (chroma_step spectrum n sr) ch).sum =
        ch.sum + (l.map (inRangeMag spectrum n sr)).sum := by
  intro l
  induction l with
  | nil => intro ch h1 h2; exact ⟨h1, h2, by simp⟩
  | cons i t ih =>
    intro ch h1 h2
    have hstep1 : (chroma_step spectrum n sr ch i).length = 12 := by
      rw [chroma_step_length, h1]
    have hstep2 := chroma_step_nonneg spectrum n sr ch i hs h2
    obtain ⟨g1, g2, g3⟩ := ih (chroma_step spectrum n sr ch i) hstep1 hstep2
    refine ⟨g1, g2, ?_⟩
    simp only [List.foldl_cons, List.map_cons, List.sum_cons, g3,
      chroma_step_sum spectrum n sr ch i h1]
    ring

lemma inRangeMag_nonneg (spectrum : List ℚ) (n : ℕ) (sr : ℚ) (hs : ∀ x ∈ spectrum, 0 ≤ x)
    (i : ℕ) : 0 ≤ inRangeMag spectrum n sr i := by
  unfold inRangeMag
  split
  · exact getD_nonneg spectrum hs i
  · exact le_refl 0

/-- C3: for every non-negative magnitude spectrum, `audio_compute_chroma`
yields a 12-bin vector with non-negative entries; its entries sum to exactly
1 whenever some bin below `spectrum_size` has frequency strictly between
80 Hz and 2000 Hz and non-zero magnitude, and they sum to 0 for the all-zero
spectrum. -/
theorem chroma_normalization (spectrum : List ℚ) (n : ℕ) (sr : ℚ)
    (hs : ∀ x ∈ spectrum, 0 ≤ x) :
    ((∃ i, i < n ∧ 80 < (i : ℚ) * sr / (2 * (n : ℚ)) ∧ (i : ℚ) * sr / (2 * (n : ℚ)) < 2000 ∧
        spectrum.getD i 0 ≠ 0) →
      (audio_compute_chroma spectrum n sr).sum = 1 ∧
      (audio_compute_chroma spectrum n sr).length = 12 ∧
      ∀ x ∈ audio_compute_chroma spectrum n sr, 0 ≤ x) ∧
    ((∀ x ∈ spectrum, x = 0) → (audio_compute_chroma spectrum n sr).sum = 0) := by
  obtain ⟨hlen, hnn, hsum⟩ := chroma_fold_spec spectrum n sr hs (List.range' 1 (n - 1))
    (List.replicate 12 0) (by simp) (by intro x hx; rw [List.eq_of_mem_replicate hx])
  constructor
  · rintro ⟨i, hin, h80, h2000, hnz⟩
    have hi1 : 1 ≤ i := by
      rcases Nat.eq_zero_or_pos i with rfl | h
      · norm_num at h80
      · exact h
    have himem : i ∈ List.range' 1 (n - 1) := by
      rw [List.mem_range']
      exact ⟨i - 1, by omega, by omega⟩
    have hipos : 0 < inRangeMag spectrum n sr i := by
      unfold inRangeMag
      rw [if_pos ⟨h80, h2000⟩]
      exact lt_of_le_of_ne (getD_nonneg spectrum hs i) (Ne.symm hnz)
    have hpos : 0 < ((List.range' 1 (n - 1)).map (inRangeMag spectrum n sr)).sum :=
      sum_map_pos _ _ (fun j _ => inRangeMag_nonneg spectrum n sr hs j) i himem hipos
    have hplus : (0 : ℚ) <
        ((List.range' 1 (n - 1)).foldl (chroma_step spectrum n sr) (List.replicate 12 0)).sum := by
      rw [hsum]
      simpa using hpos
    unfold audio_compute_chroma
    rw [if_pos hplus]
    refine ⟨?_, ?_, ?_⟩
    · rw [sum_map_div_eq]
      exact div_self (ne_of_gt hplus)
    · rw [List.length_map, hlen]
    · intro x hx
      obtain ⟨y, hy, rfl⟩ := List.mem_map.1 hx
      exact div_nonneg (hnn y hy) (le_of_lt hplus)
  · intro hzero
    have hmag0 : ∀ j : ℕ, inRangeMag spectrum n sr j = 0 := by
      intro j
      unfold inRangeMag
      split
      · rw [List.getD_eq_getElem?_getD]
        cases hp : spectrum[j]? with
        | none => rfl
        | some a => simpa using hzero a (List.getElem?_mem hp)
      · rfl
    have hz : ((List.range' 1 (n - 1)).foldl (chroma_step spectrum n sr)
        (List.replicate 12 0)).sum = 0 := by
      rw [hsum]
      have : (List.range' 1 (n - 1)).map (inRangeMag spectrum n sr) =
          (List.range' 1 (n - 1)).map (fun _ => (0 : ℚ)) :=
        List.map_congr_left fun j _ => hmag0 j
      rw [this]
      simp
    unfold audio_compute_chroma
    rw [if_neg (by rw [hz]; exact lt_irrefl 0), hz]

/-- Witness for C3: the two-bin spectrum `[0, 1]` at 1000 Hz has its bin 1 at
250 Hz (inside the 80-2000 Hz band) with magnitude 1, so the chroma sums to
exactly 1 with 12 non-negative bins. -/
theorem chroma_normalization_witness :
    (audio_compute_chroma [0, 1] 2 1000).sum = 1 ∧
    (audio_compute_chroma [0, 1] 2 1000).length = 12 ∧
    ∀ x ∈ audio_compute_chroma [0, 1] 2 1000, 0 ≤ x :=
  (chroma_normalization [0, 1] 2 1000
      (by intro x hx; simp at hx; rcases hx with rfl | rfl <;> norm_num)).1
    ⟨1, by norm_num, by norm_num, by norm_num, by simp⟩

lemma binSum_succ (spectrum : List ℚ) (j : ℕ) :
    binSum spectrum (j + 1) = binSum spectrum j + spectrum.getD (j + 1) 0 := by
  unfold binSum
  rw [List.range'_1_concat]
  simp
  rw [Nat.add_comm 1 j]

lemma rolloffGo_miss (spectrum : List ℚ) (size : ℕ) (sr et : ℚ) :
    ∀ (cnt s : ℕ), 1 ≤ s →
      (∀ j, s ≤ j → j < s + cnt → ¬ et ≤ binSum spectrum j) →
      rolloffGo spectrum size sr et (binSum spectrum (s - 1)) (List.range' s cnt) = sr / 2 := by
  intro cnt
  induction cnt with
  | zero => intro s _ _; rfl
  | succ c ih =>
    intro s hs hmiss
    rw [List.range'_succ]
    have hstep : binSum spectrum (s - 1) + spectrum.getD s 0 = binSum spectrum s := by
      have h1 : s = (s - 1) + 1 := by omega
      rw [h1, binSum_succ, ← h1]
    simp only [rolloffGo, hstep]
    rw [if_neg (hmiss s (le_refl s) (by omega))]
    have h2 : binSum spectrum s = binSum spectrum ((s + 1) - 1) := by norm_num
    rw [h2]
    exact ih (s + 1) (by omega) (fun j h1 h2 => hmiss j (by omega) (by omega))

lemma rolloffGo_hit (spectrum : List ℚ) (size : ℕ) (sr et : ℚ) :
    ∀ (cnt s : ℕ), 1 ≤ s → ∀ j, s ≤ j → j < s + cnt → et ≤ binSum spectrum j →
      (∀ k, s ≤ k → k < j → ¬ et ≤ binSum spectrum k) →
      rolloffGo spectrum size sr et (binSum spectrum (s - 1)) (List.range' s cnt) =
        (j : ℚ) * sr / (2 * (size : ℚ)) := by
  intro cnt
  induction cnt with
  | zero => intro s _ j h1 h2; omega
  | succ c ih =>
    intro s hs j hj1 hj2 hhit hmin
    rw [List.range'_succ]
    have hstep : binSum spectrum (s - 1) + spectrum.getD s 0 = binSum spectrum s := by
      have h1 : s = (s - 1) + 1 := by omega
      rw [h1, binSum_succ, ← h1]
    simp only [rolloffGo, hstep]
    rcases eq_or_lt_of_le hj1 with rfl | hsj
    · rw [if_pos hhit]
    · rw [if_neg (hmin s (le_refl s) hsj)]
      have h2 : binSum spectrum s = binSum spectrum ((s + 1) - 1) := by norm_num
      rw [h2]
      exact ih (s + 1) (by omega) j hsj (by omega) hhit
        (fun k hk1 hk2 => hmin k (by omega) hk2)

lemma binSum_zero (spectrum : List ℚ) : binSum spectrum 0 = 0 := rfl

lemma calculate_spectral_rolloff_eq (spectrum : List ℚ) (size : ℕ) (t : ℚ) (sr : ℚ) :
    calculate_spectral_rolloff spectrum size sr t =
      rolloffGo spectrum size sr (t * binSum spectrum (size - 1))
        (binSum spectrum 0) (List.range' 1 (size - 1)) := rfl

lemma binSum_replicate (size : ℕ) (u : ℚ) :
    ∀ j, j < size → binSum (List.replicate size u) j = j * u := by
  intro j
  induction j with
  | zero => intro _; simp [binSum_zero]
  | succ k ih =>
    intro hj
    rw [binSum_succ, ih (by omega)]
    have hk : (List.replicate size u).getD (k + 1) 0 = u := by
      rw [List.getD_eq_getElem?_getD, List.getElem?_replicate, if_pos hj]
      rfl
    rw [hk]
    push_cast
    ring

/-- Counterexample to C5: for the all-zero 4-bin spectrum at 100 Hz, the
threshold `0.85 × 0 = 0` is met already at bin 1, so the rolloff is
`freq(1) = 12.5` Hz and not the Nyquist frequency `50` Hz the claim assigns
to the all-zero spectrum. -/
theorem rolloff_all_zero_not_nyquist :
    calculate_spectral_rolloff [0, 0, 0, 0] 4 100 (17/20) = 25/2 ∧
      (25/2 : ℚ) ≠ 100 / 2 := by
  constructor
  · rw [calculate_spectral_rolloff_eq]
    norm_num [rolloffGo, binSum, List.range']
  · norm_num

/-- C5 amended: `calculate_spectral_rolloff` at threshold 0.85 returns
`freq(j)` for the smallest bin `j ∈ [1, size)` whose cumulative magnitude
reaches 0.85 × the total over bins `1..size-1`, and the Nyquist frequency
`sample_rate/2` when no bin reaches it (for an all-zero spectrum the
threshold 0 is reached at bin 1, so the result is `freq(1)`, not Nyquist);
for a uniform positive spectrum the result lies within one bin's resolution
of 0.85 × Nyquist. -/
theorem rolloff_characterization (spectrum : List ℚ) (size : ℕ) (sr : ℚ) (h2 : 2 ≤ size) :
    ((∀ j, 1 ≤ j → j < size → ¬ (17/20) * binSum spectrum (size - 1) ≤ binSum spectrum j) →
      calculate_spectral_rolloff spectrum size sr (17/20) = sr / 2) ∧
    (∀ j, 1 ≤ j → j < size → (17/20) * binSum spectrum (size - 1) ≤ binSum spectrum j →
      (∀ k, 1 ≤ k → k < j → ¬ (17/20) * binSum spectrum (size - 1) ≤ binSum spectrum k) →
      calculate_spectral_rolloff spectrum size sr (17/20) =
        (j : ℚ) * sr / (2 * (size : ℚ))) ∧
    (∀ u : ℚ, 0 < u → 0 < sr →
      |calculate_spectral_rolloff (List.replicate size u) size sr (17/20) -
        (17/20) * (sr / 2)| ≤ sr / (2 * (size : ℚ))) := by
  refine ⟨?_, ?_, ?_⟩
  · intro hmiss
    rw [calculate_spectral_rolloff_eq]
    have h0 : binSum spectrum 0 = binSum spectrum (1 - 1) := rfl
    rw [h0]
    exact rolloffGo_miss spectrum size sr _ (size - 1) 1 (le_refl 1)
      (fun j hj1 hj2 => hmiss j hj1 (by omega))
  · intro j hj1 hj2 hhit hmin
    rw [calculate_spectral_rolloff_eq]
    have h0 : binSum spectrum 0 = binSum spectrum (1 - 1) := rfl
    rw [h0]
    exact rolloffGo_hit spectrum size sr _ (size - 1) 1 (le_refl 1) j hj1 (by omega) hhit
      (fun k hk1 hk2 => hmin k hk1 hk2)
  · intro u hu hsr
    set x : ℚ := (17/20) * ((size : ℚ) - 1) with hx
    have hx0 : 0 < x := by
      rw [hx]
      have : (2 : ℚ) ≤ (size : ℚ) := by exact_mod_cast h2
      nlinarith
    set j : ℕ := ⌈x⌉₊ with hjdef
    have hj1 : 1 ≤ j := Nat.ceil_pos.2 hx0
    have hjle : (x : ℚ) ≤ (j : ℚ) := Nat.le_ceil x
    have hjup : (j : ℚ) < x + 1 := Nat.ceil_lt_add_one (le_of_lt hx0)
    have hjsize : j < size := by
      have hcl : j ≤ size - 1 := by
        rw [hjdef]
        rw [Nat.ceil_le]
        have hcast : ((size - 1 : ℕ) : ℚ) = (size : ℚ) - 1 := by
          have : (1 : ℕ) ≤ size := by omega
          push_cast [this]
          ring
        rw [hcast, hx]
        have h1 : (0 : ℚ) ≤ (size : ℚ) - 1 := by
          have : (2 : ℚ) ≤ (size : ℚ) := by exact_mod_cast h2
          linarith
        nlinarith
      omega
    have htot : binSum (List.replicate size u) (size - 1) = ((size : ℚ) - 1) * u := by
      rw [binSum_replicate size u (size - 1) (by omega)]
      have hcast : ((size - 1 : ℕ) : ℚ) = (size : ℚ) - 1 := by
        have : (1 : ℕ) ≤ size := by omega
        push_cast [this]
        ring
      rw [hcast]
    have hhit : (17/20) * binSum (List.replicate size u) (size - 1) ≤
        binSum (List.replicate size u) j := by
      rw [htot, binSum_replicate size u j hjsize]
      calc (17/20) * (((size : ℚ) - 1) * u) = x * u := by rw [hx]; ring
        _ ≤ (j : ℚ) * u := by nlinarith
    have hmin : ∀ k, 1 ≤ k → k < j →
        ¬ (17/20) * binSum (List.replicate size u) (size - 1) ≤
          binSum (List.replicate size u) k := by
      intro k hk1 hkj
      rw [htot, binSum_replicate size u k (by omega), not_le]
      have hkx : (k : ℚ) < x := Nat.lt_ceil.1 hkj
      calc (k : ℚ) * u < x * u := by nlinarith
        _ = (17/20) * (((size : ℚ) - 1) * u) := by rw [hx]; ring
    have hcalc : calculate_spectral_rolloff (List.replicate size u) size sr (17/20) =
        (j : ℚ) * sr / (2 * (size : ℚ)) := by
      rw [calculate_spectral_rolloff_eq]
      have h0 : binSum (List.replicate size u) 0 = binSum (List.replicate size u) (1 - 1) := rfl
      rw [h0]
      exact rolloffGo_hit (List.replicate size u) size sr _ (size - 1) 1 (le_refl 1)
        j hj1 (by omega) hhit (fun k hk1 hk2 => hmin k hk1 hk2)
    rw [hcalc]
    have hS : (2 : ℚ) ≤ (size : ℚ) := by exact_mod_cast h2
    have hSpos : (0 : ℚ) < 2 * (size : ℚ) := by linarith
    have key : (j : ℚ) * sr / (2 * (size : ℚ)) - (17/20) * (sr / 2) =
        sr * ((j : ℚ) - (17/20) * (size : ℚ)) / (2 * (size : ℚ)) := by
      field_simp
      ring
    rw [key, abs_div, abs_mul, abs_of_pos hsr, abs_of_pos hSpos]
    have hd : |(j : ℚ) - (17/20) * (size : ℚ)| ≤ 1 := by
      rw [hx] at hjle hjup
      rw [abs_le]
      constructor <;> linarith
    calc sr * |(j : ℚ) - (17/20) * (size : ℚ)| / (2 * (size : ℚ))
        ≤ sr * 1 / (2 * (size : ℚ)) := by
          apply div_le_div_of_nonneg_right ?_ (le_of_lt hSpos)
          exact mul_le_mul_of_nonneg_left hd (le_of_lt hsr)
      _ = sr / (2 * (size : ℚ)) := by ring

/-- Witness for C5 (amended): for the spectrum `[0, 1, 0, 1]` (size 4,
8000 Hz), bin 3 is the first whose cumulative magnitude (2) reaches
0.85 × total (1.7), so the rolloff is `freq(3) = 3000` Hz. -/
theorem rolloff_characterization_witness :
    calculate_spectral_rolloff [0, 1, 0, 1] 4 8000 (17/20) = 3000 := by
  have h := (rolloff_characterization [0, 1, 0, 1] 4 8000 (by omega)).2.1 3
    (by omega) (by omega)
    (by norm_num [binSum, List.range', List.getD])
    (by
      intro k hk1 hk2
      interval_cases k
      · norm_num [binSum, List.range', List.getD]
      · norm_num [binSum, List.range', List.getD])
  rw [h]
  norm_num

/-- The generic best-of loop underlying `chord_match`: fold a strict-maximum
selection over candidate indices (specification-side helper used to reason
about the loop). -/
def chordSel (f : ℕ → ℚ) (l : List ℕ) (best : ℕ × ℚ) : ℕ × ℚ :=
  l.foldl (fun b c => if b.2 < f c then (c, f c) else b) best

lemma chord_match_eq_chordSel (chroma : List ℚ) :
    chord_match chroma =
      chordSel (fun c => chord_correlation chroma (chord_templates.getD c []))
        (List.range' 0 24) (0, 0) := by
  unfold chord_match chordSel
  rw [List.range_eq_range']

lemma chordSel_spec (f : ℕ → ℚ) :
    ∀ (cnt s : ℕ) (best : ℕ × ℚ), best.1 ≤ s →
      best.2 ≤ (chordSel f (List.range' s cnt) best).2 ∧
      (chordSel f (List.range' s cnt) best = best ∨
        (s ≤ (chordSel f (List.range' s cnt) best).1 ∧
         (chordSel f (List.range' s cnt) best).1 < s + cnt ∧
         f (chordSel f (List.range' s cnt) best).1 = (chordSel f (List.range' s cnt) best).2 ∧
         best.2 < (chordSel f (List.range' s cnt) best).2)) ∧
      (∀ c, s ≤ c → c < s + cnt → f c ≤ (chordSel f (List.range' s cnt) best).2) ∧
      (∀ c, s ≤ c → c < s + cnt → c < (chordSel f (List.range' s cnt) best).1 →
        f c < (chordSel f (List.range' s cnt) best).2) := by
  intro cnt
  induction cnt with
  | zero =>
    intro s best _
    refine ⟨le_refl _, Or.inl rfl, ?_, ?_⟩
    · intro c h1 h2; omega
    · intro c h1 h2; omega
  | succ m ih =>
    intro s best hbest
    rw [List.range'_succ]
    by_cases himp : best.2 < f s
    · have hstep : chordSel f (s :: List.range' (s + 1) m) best =
          chordSel f (List.range' (s + 1) m) (s, f s) := by
        unfold chordSel
        rw [List.foldl_cons, if_pos himp]
      rw [hstep]
      obtain ⟨hA, hB, hC, hD⟩ := ih (s + 1) (s, f s) (by omega)
      refine ⟨by simp at hA; linarith, ?_, ?_, ?_⟩
      · rcases hB with hR | ⟨h1, h2, h3, h4⟩
        · refine Or.inr ?_
          rw [hR]
          exact ⟨le_refl s, by omega, rfl, himp⟩
        · simp only at h4
          exact Or.inr ⟨by omega, by omega, h3, by linarith⟩
      · intro c h1 h2
        rcases eq_or_lt_of_le h1 with rfl | h
        · simpa using hA
        · exact hC c (by omega) (by omega)
      · intro c h1 h2 hlt
        rcases eq_or_lt_of_le h1 with rfl | h
        · rcases hB with hR | ⟨_, _, _, h4⟩
          · rw [hR] at hlt; omega
          · simpa using h4
        · exact hD c (by omega) (by omega) hlt
    · have hstep : chordSel f (s :: List.range' (s + 1) m) best =
          chordSel f (List.range' (s + 1) m) best := by
        unfold chordSel
        rw [List.foldl_cons, if_neg himp]
      rw [hstep]
      obtain ⟨hA, hB, hC, hD⟩ := ih (s + 1) best (by omega)
      refine ⟨hA, ?_, ?_, ?_⟩
      · rcases hB with hR | ⟨h1, h2, h3, h4⟩
        · exact Or.inl hR
        · exact Or.inr ⟨by omega, by omega, h3, h4⟩
      · intro c h1 h2
        rcases eq_or_lt_of_le h1 with rfl | h
        · exact le_trans (not_lt.1 himp) hA
        · exact hC c (by omega) (by omega)
      · intro c h1 h2 hlt
        rcases eq_or_lt_of_le h1 with rfl | h
        · rcases hB with hR | ⟨_, _, _, h4⟩
          · rw [hR] at hlt
            omega
          · exact lt_of_le_of_lt (not_lt.1 himp) h4
        · exact hD c (by omega) (by omega) hlt

lemma template_entries_nonneg : ∀ t ∈ chord_templates, ∀ x ∈ t, (0 : ℚ) ≤ x := by decide

lemma chord_correlation_nonneg (chroma : List ℚ) (h : ∀ x ∈ chroma, 0 ≤ x) (c : ℕ) :
    0 ≤ chord_correlation chroma (chord_templates.getD c []) := by
  refine List.sum_nonneg ?_
  intro x hx
  obtain ⟨i, _, rfl⟩ := List.mem_map.1 hx
  refine mul_nonneg (getD_nonneg chroma h i) ?_
  rw [List.getD_eq_getElem?_getD chord_templates c]
  cases ht : chord_templates[c]? with
  | none => simp
  | some t =>
    simp only [Option.getD_some]
    exact getD_nonneg t (template_entries_nonneg t (List.getElem?_mem ht)) i

/-- Counterexample to C4: on the raw C-major template chroma
`(1,0,0,0,1,0,0,1,0,0,0,0)` the winning dot product — reported as the
confidence — is 3.0, not the claimed 1.0. -/
theorem chord_match_cmajor_raw_confidence :
    (chord_match [1, 0, 0, 0, 1, 0, 0, 1, 0, 0, 0, 0]).2 = 3 ∧ (3 : ℚ) ≠ 1 := by
  constructor
  · norm_num [chord_match, chord_correlation, chord_templates, List.range_succ, List.getD]
  · norm_num

/-- C4 amended: for every non-negative chroma vector, `chord_match` selects
the template of maximal dot product, resolving ties by lowest template index
(every template below the winner correlates strictly lower, every template
at most as high), the winner's correlation is the reported score and the
winning index is below 24; the consumer reads root `index % 12` and minor
`index ≥ 12` from it.  On the chroma equal to the raw C-major template the
result is index 0 (root C major) with confidence 3.0 — the dot product of
the binary template with itself — and 1.0 on the unit-sum-normalized
template. -/
theorem chord_match_spec (chroma : List ℚ) (h : ∀ x ∈ chroma, 0 ≤ x) :
    ((chord_match chroma).1 < 24 ∧
     chord_correlation chroma (chord_templates.getD (chord_match chroma).1 []) =
       (chord_match chroma).2 ∧
     (∀ c, c < 24 → chord_correlation chroma (chord_templates.getD c []) ≤
       (chord_match chroma).2) ∧
     (∀ c, c < (chord_match chroma).1 →
       chord_correlation chroma (chord_templates.getD c []) < (chord_match chroma).2)) ∧
    chord_match [1, 0, 0, 0, 1, 0, 0, 1, 0, 0, 0, 0] = (0, 3) ∧
    chord_match [1/3, 0, 0, 0, 1/3, 0, 0, 1/3, 0, 0, 0, 0] = (0, 1) := by
  obtain ⟨hA, hB, hC, hD⟩ :=
    chordSel_spec (fun c => chord_correlation chroma (chord_templates.getD c []))
      24 0 (0, 0) (le_refl 0)
  rw [← chord_match_eq_chordSel] at hA hB hC hD
  refine ⟨⟨?_, ?_, ?_, ?_⟩, ?_, ?_⟩
  · rcases hB with hR | ⟨_, h2, _, _⟩
    · rw [hR]; omega
    · omega
  · rcases hB with hR | ⟨_, _, h3, _⟩
    · rw [hR]
      have h0 : chord_correlation chroma (chord_templates.getD 0 []) ≤ 0 := by
        have := hC 0 (by omega) (by omega)
        rw [hR] at this
        exact this
      have h0ge := chord_correlation_nonneg chroma h 0
      simp only
      linarith
    · exact h3
  · intro c hc
    exact hC c (by omega) (by omega)
  · intro c hc
    have hc24 : c < 24 := by
      rcases hB with hR | ⟨_, h2, _, _⟩
      · rw [hR] at hc; omega
      · omega
    exact hD c (by omega) (by omega) hc
  · norm_num [chord_match, chord_correlation, chord_templates, List.range_succ, List.getD,
      Prod.ext_iff]
  · norm_num [chord_match, chord_correlation, chord_templates, List.range_succ, List.getD,
      Prod.ext_iff]

/-- Witness for C4 (amended): instantiating the selection properties on the
raw C-major template chroma: the winner is index 0 with score 3, every
template scores at most 3, and the reported winner data agree. -/
theorem chord_match_spec_witness :
    ((chord_match [1, 0, 0, 0, 1, 0, 0, 1, 0, 0, 0, 0]).1 < 24 ∧
     chord_correlation [1, 0, 0, 0, 1, 0, 0, 1, 0, 0, 0, 0]
       (chord_templates.getD (chord_match [1, 0, 0, 0, 1, 0, 0, 1, 0, 0, 0, 0]).1 []) =
       (chord_match [1, 0, 0, 0, 1, 0, 0, 1, 0, 0, 0, 0]).2 ∧
     (∀ c, c < 24 → chord_correlation [1, 0, 0, 0, 1, 0, 0, 1, 0, 0, 0, 0]
       (chord_templates.getD c []) ≤ (chord_match [1, 0, 0, 0, 1, 0, 0, 1, 0, 0, 0, 0]).2) ∧
     (∀ c, c < (chord_match [1, 0, 0, 0, 1, 0, 0, 1, 0, 0, 0, 0]).1 →
       chord_correlation [1, 0, 0, 0, 1, 0, 0, 1, 0, 0, 0, 0] (chord_templates.getD c []) <
         (chord_match [1, 0, 0, 0, 1, 0, 0, 1, 0, 0, 0, 0]).2)) ∧
    chord_match [1, 0, 0, 0, 1, 0, 0, 1, 0, 0, 0, 0] = (0, 3) ∧
    chord_match [1/3, 0, 0, 0, 1/3, 0, 0, 1/3, 0, 0, 0, 0] = (0, 1) :=
  chord_match_spec [1, 0, 0, 0, 1, 0, 0, 1, 0, 0, 0, 0] (by decide)

lemma midiSearch_eval (y : ℚ) :
    ∀ (j fuel n : ℕ), j < fuel →
      (∀ k, k < j → ¬ y < 4 ^ (n + k + 1)) → y < 4 ^ (n + j + 1) →
      midiSearch y fuel n (4 ^ (n + 1)) = n + j := by
  intro j
  induction j with
  | zero =>
    intro fuel n hfuel _ hlt
    cases fuel with
    | zero => omega
    | succ f =>
      unfold midiSearch
      rw [if_pos (by simpa using hlt)]
      omega
  | succ m ih =>
    intro fuel n hfuel hmin hlt
    cases fuel with
    | zero => omega
    | succ f =>
      unfold midiSearch
      rw [if_neg (by simpa using hmin 0 (by omega))]
      have hp : (4 : ℚ) * 4 ^ (n + 1) = 4 ^ (n + 1 + 1) := by ring
      rw [hp]
      have hmin2 : ∀ k, k < m → ¬ y < 4 ^ (n + 1 + k + 1) := by
        intro k hk
        have h2 := hmin (k + 1) (by omega)
        have he : n + (k + 1) + 1 = n + 1 + k + 1 := by omega
        rw [he] at h2
        exact h2
      have hlt2 : y < 4 ^ (n + 1 + m + 1) := by
        have he : n + (m + 1) + 1 = n + 1 + m + 1 := by omega
        rw [he] at hlt
        exact hlt
      rw [ih f (n + 1) (by omega) hmin2 hlt2]
      omega

lemma midiRound_eq_of_bounds (x : ℚ) (j : ℕ) (hj : j < 150)
    (hlo : 4 ^ j ≤ x ^ 24 * 2 ^ 139) (hhi : x ^ 24 * 2 ^ 139 < 4 ^ (j + 1)) :
    midiRound x = j := by
  unfold midiRound
  have h4 : (4 : ℚ) = 4 ^ (0 + 1) := by norm_num
  rw [h4]
  have hmin : ∀ k, k < j → ¬ x ^ 24 * 2 ^ 139 < 4 ^ (0 + k + 1) := by
    intro k hk
    rw [not_lt]
    refine le_trans ?_ hlo
    refine pow_le_pow_right₀ (by norm_num) ?_
    omega
  have := midiSearch_eval (x ^ 24 * 2 ^ 139) j 150 0 hj hmin (by simpa using hhi)
  simpa using this

lemma pitch_class_eq (f : ℚ) (j : ℕ) (h : midiRound (f / 440) = j) :
    pitch_class f = j % 12 := by
  simp only [pitch_class, h]
  have h2 : ((j : ℤ).tmod 12) = ((j % 12 : ℕ) : ℤ) := rfl
  rw [h2, if_neg (by omega)]
  omega

lemma pitch_class_b1 : pitch_class (11025 / 128) = 5 := by
  rw [pitch_class_eq _ 41 (midiRound_eq_of_bounds _ 41 (by norm_num) (by norm_num) (by norm_num))]

lemma pitch_class_b2 : pitch_class (11025 / 64) = 5 := by
  rw [pitch_class_eq _ 53 (midiRound_eq_of_bounds _ 53 (by norm_num) (by norm_num) (by norm_num))]

lemma pitch_class_b3 : pitch_class (33075 / 128) = 0 := by
  rw [pitch_class_eq _ 60 (midiRound_eq_of_bounds _ 60 (by norm_num) (by norm_num) (by norm_num))]

lemma pitch_class_b4 : pitch_class (11025 / 32) = 5 := by
  rw [pitch_class_eq _ 65 (midiRound_eq_of_bounds _ 65 (by norm_num) (by norm_num) (by norm_num))]

lemma pitch_class_b5 : pitch_class (55125 / 128) = 9 := by
  rw [pitch_class_eq _ 69 (midiRound_eq_of_bounds _ 69 (by norm_num) (by norm_num) (by norm_num))]

lemma pitch_class_b6 : pitch_class (33075 / 64) = 0 := by
  rw [pitch_class_eq _ 72 (midiRound_eq_of_bounds _ 72 (by norm_num) (by norm_num) (by norm_num))]

lemma pitch_class_b7 : pitch_class (77175 / 128) = 2 := by
  rw [pitch_class_eq _ 74 (midiRound_eq_of_bounds _ 74 (by norm_num) (by norm_num) (by norm_num))]

lemma pitch_class_b8 : pitch_class (11025 / 16) = 5 := by
  rw [pitch_class_eq _ 77 (midiRound_eq_of_bounds _ 77 (by norm_num) (by norm_num) (by norm_num))]

lemma pitch_class_b9 : pitch_class (99225 / 128) = 7 := by
  rw [pitch_class_eq _ 79 (midiRound_eq_of_bounds _ 79 (by norm_num) (by norm_num) (by norm_num))]

lemma pitch_class_b10 : pitch_class (55125 / 64) = 9 := by
  rw [pitch_class_eq _ 81 (midiRound_eq_of_bounds _ 81 (by norm_num) (by norm_num) (by norm_num))]

lemma pitch_class_b11 : pitch_class (121275 / 128) = 10 := by
  rw [pitch_class_eq _ 82 (midiRound_eq_of_bounds _ 82 (by norm_num) (by norm_num) (by norm_num))]

lemma pitch_class_b12 : pitch_class (33075 / 32) = 0 := by
  rw [pitch_class_eq _ 84 (midiRound_eq_of_bounds _ 84 (by norm_num) (by norm_num) (by norm_num))]

lemma pitch_class_b13 : pitch_class (143325 / 128) = 1 := by
  rw [pitch_class_eq _ 85 (midiRound_eq_of_bounds _ 85 (by norm_num) (by norm_num) (by norm_num))]

lemma pitch_class_b14 : pitch_class (77175 / 64) = 2 := by
  rw [pitch_class_eq _ 86 (midiRound_eq_of_bounds _ 86 (by norm_num) (by norm_num) (by norm_num))]

lemma pitch_class_b15 : pitch_class (165375 / 128) = 4 := by
  rw [pitch_class_eq _ 88 (midiRound_eq_of_bounds _ 88 (by norm_num) (by norm_num) (by norm_num))]

lemma pitch_class_b16 : pitch_class (11025 / 8) = 5 := by
  rw [pitch_class_eq _ 89 (midiRound_eq_of_bounds _ 89 (by norm_num) (by norm_num) (by norm_num))]

lemma pitch_class_b17 : pitch_class (187425 / 128) = 6 := by
  rw [pitch_class_eq _ 90 (midiRound_eq_of_bounds _ 90 (by norm_num) (by norm_num) (by norm_num))]

lemma pitch_class_b18 : pitch_class (99225 / 64) = 7 := by
  rw [pitch_class_eq _ 91 (midiRound_eq_of_bounds _ 91 (by norm_num) (by norm_num) (by norm_num))]

lemma pitch_class_b19 : pitch_class (209475 / 128) = 8 := by
  rw [pitch_class_eq _ 92 (midiRound_eq_of_bounds _ 92 (by norm_num) (by norm_num) (by norm_num))]

lemma pitch_class_b20 : pitch_class (55125 / 32) = 9 := by
  rw [pitch_class_eq _ 93 (midiRound_eq_of_bounds _ 93 (by norm_num) (by norm_num) (by norm_num))]

lemma pitch_class_b21 : pitch_class (231525 / 128) = 9 := by
  rw [pitch_class_eq _ 93 (midiRound_eq_of_bounds _ 93 (by norm_num) (by norm_num) (by norm_num))]

lemma pitch_class_b22 : pitch_class (121275 / 64) = 10 := by
  rw [pitch_class_eq _ 94 (midiRound_eq_of_bounds _ 94 (by norm_num) (by norm_num) (by norm_num))]

lemma pitch_class_b23 : pitch_class (253575 / 128) = 11 := by
  rw [pitch_class_eq _ 95 (midiRound_eq_of_bounds _ 95 (by norm_num) (by norm_num) (by norm_num))]

set_option maxRecDepth 8192 in
set_option maxHeartbeats 2000000 in
lemma dna_chroma_dnaSpec :
    dna_chroma dnaSpec = [1, 1, 1, 0, 1, 1, 1, 1, 1, 1, 1, 1] := by
  unfold dna_chroma FREQ_BINS I2S_SAMPLE_RATE
  norm_num [List.range', chroma_step, dnaSpec, List.getD,
    pitch_class_b1, pitch_class_b2, pitch_class_b3, pitch_class_b4, pitch_class_b5,
    pitch_class_b6, pitch_class_b7, pitch_class_b8, pitch_class_b9, pitch_class_b10,
    pitch_class_b11, pitch_class_b12, pitch_class_b13, pitch_class_b14, pitch_class_b15,
    pitch_class_b16, pitch_class_b17, pitch_class_b18, pitch_class_b19, pitch_class_b20,
    pitch_class_b21, pitch_class_b22, pitch_class_b23]
  decide

lemma dna_chroma_norm_dnaSpec :
    dna_chroma_norm dnaSpec =
      [1/11, 1/11, 1/11, 0, 1/11, 1/11, 1/11, 1/11, 1/11, 1/11, 1/11, 1/11] := by
  unfold dna_chroma_norm
  rw [dna_chroma_dnaSpec]
  norm_num

lemma chord_match_dnaChroma :
    chord_match [1/11, 1/11, 1/11, 0, 1/11, 1/11, 1/11, 1/11, 1/11, 1/11, 1/11, 1/11] =
      (0, 3/11) := by
  norm_num [chord_match, chord_correlation, chord_templates, List.range_succ, List.getD,
    Prod.ext_iff]

lemma analyze_chords_below (spectrum : List ℚ) (cur : chord_info_t)
    (h : (chord_match (dna_chroma_norm spectrum)).2 ≤ 3/10) :
    analyze_chords spectrum cur =
      (if 0 < (dna_chroma spectrum).sum then { cur with chroma := dna_chroma_norm spectrum }
       else cur) := by
  simp only [analyze_chords]
  rw [if_neg (not_lt.2 h)]

lemma set_getD_self : ∀ (l : List ℚ) (p : ℕ), p < l.length → l.set p (l.getD p 0) = l
  | [], p, hp => by simp at hp
  | a :: t, 0, _ => rfl
  | a :: t, p + 1, hp => by
    simp only [List.set, List.getD_cons_succ]
    rw [set_getD_self t p (by simpa using hp)]

lemma chroma_step_nil (n : ℕ) (sr : ℚ) (ch : List ℚ) (i : ℕ) (hch : ch.length = 12) :
    chroma_step [] n sr ch i = ch := by
  by_cases h : 80 < (i : ℚ) * sr / (2 * (n : ℚ)) ∧ (i : ℚ) * sr / (2 * (n : ℚ)) < 2000
  · simp only [chroma_step, if_pos h]
    have h0 : ([] : List ℚ).getD i 0 = 0 := rfl
    rw [h0, add_zero]
    exact set_getD_self ch _ (by rw [hch]; exact pitch_class_lt_12 _)
  · simp only [chroma_step, if_neg h]

lemma dna_chroma_nil : dna_chroma [] = List.replicate 12 0 := by
  unfold dna_chroma
  have hfold : ∀ (l : List ℕ) (ch : List ℚ), ch.length = 12 →
      l.foldl (chroma_step [] FREQ_BINS I2S_SAMPLE_RATE) ch = ch := by
    intro l
    induction l with
    | nil => intro ch _; rfl
    | cons i t ih =>
      intro ch hch
      rw [List.foldl_cons, chroma_step_nil _ _ _ _ hch]
      exact ih ch hch
  exact hfold _ _ (by simp)

lemma dna_chroma_norm_nil : dna_chroma_norm [] = List.replicate 12 0 := by
  unfold dna_chroma_norm
  rw [dna_chroma_nil]
  norm_num

lemma chord_match_zero : chord_match (List.replicate 12 0) = (0, 0) := by
  norm_num [chord_match, chord_correlation, chord_templates, List.range_succ, List.getD,
    List.replicate, Prod.ext_iff]

/-- Counterexample to C9: on the spectrum `dnaSpec` — whose chroma spreads
over 11 pitch classes so that the best template correlation is 3/11 ≤ 0.3 —
`analyze_chords` leaves root/type/confidence untouched but overwrites the
consumer-visible chroma snapshot with the new normalized chroma, so the
estimate is not left unchanged as the claim states. -/
theorem analyze_chords_snapshot_updated_below_threshold :
    (chord_match (dna_chroma_norm dnaSpec)).2 ≤ 3/10 ∧
    (analyze_chords dnaSpec dnaCur).root_note = dnaCur.root_note ∧
    (analyze_chords dnaSpec dnaCur).confidence = dnaCur.confidence ∧
    (analyze_chords dnaSpec dnaCur).chroma ≠ dnaCur.chroma := by
  have hle : (chord_match (dna_chroma_norm dnaSpec)).2 ≤ 3/10 := by
    rw [dna_chroma_norm_dnaSpec, chord_match_dnaChroma]
    norm_num
  have heval : analyze_chords dnaSpec dnaCur = { dnaCur with chroma := dna_chroma_norm dnaSpec } := by
    rw [analyze_chords_below dnaSpec dnaCur hle]
    rw [if_pos (by rw [dna_chroma_dnaSpec]; norm_num)]
  refine ⟨hle, ?_, ?_, ?_⟩
  · rw [heval]
  · rw [heval]
  · rw [heval]
    simp only [dna_chroma_norm_dnaSpec]
    intro hcontra
    norm_num [dnaCur, List.replicate] at hcontra

/-- C9 amended: whenever the winning template correlation is at most 0.3,
`analyze_chords` leaves `root_note`, `chord_type` and `confidence` unchanged
from the previous frame; the chroma snapshot, however, is overwritten with
the freshly computed normalized chroma whenever the frame's in-range chroma
energy is positive (only an all-zero accumulation leaves it unchanged) —
only `root_note`/`chord_type`/`confidence` wait for confidence > 0.3. -/
theorem analyze_chords_low_confidence (spectrum : List ℚ) (cur : chord_info_t)
    (h : (chord_match (dna_chroma_norm spectrum)).2 ≤ 3/10) :
    (analyze_chords spectrum cur).root_note = cur.root_note ∧
    (analyze_chords spectrum cur).chord_type = cur.chord_type ∧
    (analyze_chords spectrum cur).confidence = cur.confidence ∧
    (analyze_chords spectrum cur).chroma =
      (if 0 < (dna_chroma spectrum).sum then dna_chroma_norm spectrum else cur.chroma) := by
  rw [analyze_chords_below spectrum cur h]
  by_cases hs : 0 < (dna_chroma spectrum).sum
  · simp [hs]
  · simp [hs]

/-- Witness for C9 (amended): the empty spectrum accumulates no chroma
energy, the best correlation is 0 ≤ 0.3, and the previous estimate — root F
minor at confidence 0.5 with an all-zero snapshot — is fully preserved. -/
theorem analyze_chords_low_confidence_witness :
    (analyze_chords [] dnaCur).root_note = 5 ∧
    (analyze_chords [] dnaCur).chord_type = 1 ∧
    (analyze_chords [] dnaCur).confidence = 1/2 ∧
    (analyze_chords [] dnaCur).chroma = List.replicate 12 0 := by
  obtain ⟨h1, h2, h3, h4⟩ := analyze_chords_low_confidence [] dnaCur
    (by rw [dna_chroma_norm_nil, chord_match_zero]; norm_num)
  rw [dna_chroma_nil] at h4
  refine ⟨h1.trans rfl, h2.trans rfl, h3.trans rfl, ?_⟩
  rw [h4, if_neg (by norm_num)]
  rfl

end AudioSpec
